import Mathlib

/-!
Shallow embedding of `src/generate_cordic_constants.py`, a design-time
generator of fixed-point CORDIC constants.  The Python source computes with
real-valued constants (`math.pi`, `math.sqrt`, `math.atan`) and converts them
to integers with `int()`, which truncates toward zero; we model the real
arithmetic with `ℝ` and `int()` with `int_trunc` below.  The emitted
arctangent table and reduction ladder are print loops in the source; they are
modelled as the lists of values those loops emit, in emission order.
-/

/-- Python `int()` applied to a real value: truncation toward zero. -/
noncomputable def int_trunc (x : ℝ) : ℤ := if x < 0 then ⌈x⌉ else ⌊x⌋

/-- `frac_bits = max(angle_width - 3, 5)` (line 16 of the source). -/
def frac_bits (angle_width : ℤ) : ℤ := max (angle_width - 3) 5

/-- `angle_scale = 2**frac_bits` (line 17).  `frac_bits` is always ≥ 5, so the
`toNat` is lossless. -/
def angle_scale (angle_width : ℤ) : ℤ := 2 ^ (frac_bits angle_width).toNat

/-- `coord_scale = 2**(width - 2)` (line 18).  For `width ≥ 2` Python produces
the integer `2^(width-2)`; for `width = 1` it produces the float `0.5`.  Both
are the exact value `2^(width-2)`, represented here in `ℚ`. -/
def coord_scale (width : ℤ) : ℚ := 2 ^ (width - 2)

/-- `pi_scaled = int(math.pi * angle_scale)` (line 25). -/
noncomputable def pi_scaled (angle_width : ℤ) : ℤ :=
  int_trunc (Real.pi * (angle_scale angle_width : ℝ))

/-- `pi_2_scaled = int(math.pi/2 * angle_scale)` (line 26). -/
noncomputable def pi_2_scaled (angle_width : ℤ) : ℤ :=
  int_trunc (Real.pi / 2 * (angle_scale angle_width : ℝ))

/-- `pi_3_2_scaled = int(3*math.pi/2 * angle_scale)` (line 27). -/
noncomputable def pi_3_2_scaled (angle_width : ℤ) : ℤ :=
  int_trunc (3 * Real.pi / 2 * (angle_scale angle_width : ℝ))

/-- `two_pi_scaled = int(2*math.pi * angle_scale)` (line 28). -/
noncomputable def two_pi_scaled (angle_width : ℤ) : ℤ :=
  int_trunc (2 * Real.pi * (angle_scale angle_width : ℝ))

/-- The running product of lines 31–33: starts at `1.0` and multiplies in
`math.sqrt(1 + 2**(-2*i))` for `i = 0, …, iterations-1`. -/
noncomputable def cordic_gain_real : ℕ → ℝ
  | 0 => 1
  | n + 1 => cordic_gain_real n * Real.sqrt (1 + (2 : ℝ) ^ (-(2 * (n : ℤ))))

/-- `cordic_gain_compensated = 1.0 / cordic_gain_real` (line 34). -/
noncomputable def cordic_gain_compensated (iterations : ℕ) : ℝ :=
  1 / cordic_gain_real iterations

/-- `cordic_gain_scaled = int(cordic_gain_compensated * coord_scale)` (line 35). -/
noncomputable def cordic_gain_scaled (iterations : ℕ) (width : ℤ) : ℤ :=
  int_trunc (cordic_gain_compensated iterations * (coord_scale width : ℝ))

/-- `max_reduction_power = min(angle_width - 4, 10)` (line 49). -/
def max_reduction_power (angle_width : ℤ) : ℤ := min (angle_width - 4) 10

/-- One arctangent-table entry: `int(math.atan(2**(-i)) * angle_scale)`
(lines 62–63). -/
noncomputable def atan_scaled (angle_width : ℤ) (i : ℕ) : ℤ :=
  int_trunc (Real.arctan ((2 : ℝ) ^ (-(i : ℤ))) * (angle_scale angle_width : ℝ))

/-- The arctangent table emitted by the loop of lines 61–68, in emission
order: one entry per `i in range(iterations)`. -/
noncomputable def atan_table (angle_width : ℤ) (iterations : ℕ) : List ℤ :=
  (List.range iterations).map (atan_scaled angle_width)

/-- One level of the reduction ladder as emitted by lines 78–95.  For
`power > 0` the emitted branch compares against `(TWO_PI << power)` — recorded
here as the shift count `shift = power` — with the comment `>= 2^(power+1)*180°`,
and falls through to the next level.  For `power = 0` the branch compares
against `TWO_PI` itself (`shift = 0`, 360°) and ends in the terminal
quadrant-correction exit comment instead of a further reduction step. -/
structure ReductionLevel where
  power : ℤ
  shift : ℕ
  angle_equiv_deg : ℤ
  terminal : Bool

/-- The level emitted for a given `power` by the loop body of lines 78–95. -/
def reduction_level (power : ℕ) : ReductionLevel :=
  { power := power
    shift := power
    angle_equiv_deg := 2 ^ (power + 1) * 180
    terminal := power == 0 }

/-- The reduction ladder emitted by `for power in range(max_reduction_power, -1, -1)`
(line 78): the `k`-th emitted level has power `max_reduction_power - k`, for
`k = 0, …, max_reduction_power`.  When `max_reduction_power < 0` the Python
range is empty and no level is emitted. -/
def reduction_ladder (angle_width : ℤ) : List ReductionLevel :=
  if max_reduction_power angle_width < 0 then []
  else (List.range ((max_reduction_power angle_width).toNat + 1)).map
    (fun k => reduction_level ((max_reduction_power angle_width).toNat - k))

/-- The five preset configurations of the demonstration sweep (lines 149–155). -/
def demo_configs : List (ℤ × ℤ × ℤ) :=
  [(16, 12, 16), (24, 15, 16), (32, 15, 16), (40, 18, 20), (48, 20, 24)]

/-- Outcome of one invocation of the program's `main` (lines 138–168):
either the demonstration sweep over the preset configurations, a single
generation run for the three parsed integers, or an uncaught `int()`
conversion failure. -/
inductive MainResult where
  | demoSweep (configs : List (ℤ × ℤ × ℤ))
  | generated (angle_width iterations width : ℤ)
  | convFailure

/-- The value of a non-empty all-digit character sequence, else `none`. -/
def digits_to_nat (l : List Char) : Option ℕ :=
  if l ≠ [] ∧ l.all Char.isDigit then
    some (l.foldl (fun n c => 10 * n + (c.toNat - 48)) 0)
  else none

/-- Python `int()` applied to a command-line string: an optional minus sign
followed by decimal digits yields the signed value, anything else raises
`ValueError`, modelled as `none`.  (Python additionally strips surrounding
whitespace and allows `+` and digit-group underscores; those lenient forms do
not occur in the invocations considered here.) -/
def parse_int (s : String) : Option ℤ :=
  match s.data with
  | '-' :: rest => (digits_to_nat rest).map (fun n => -(n : ℤ))
  | l => (digits_to_nat l).map (fun n => (n : ℤ))

/-- `main` (lines 138–168): with any argument count other than 4 (program
name included) it runs the demonstration sweep; otherwise it converts the
three positional arguments with `int()`, which raises an uncaught
`ValueError` on a non-integer argument, and runs one generation. -/
def main_run (argv : List String) : MainResult :=
  if argv.length ≠ 4 then .demoSweep demo_configs
  else
    match argv[1]?.bind parse_int, argv[2]?.bind parse_int,
        argv[3]?.bind parse_int with
    | some a, some i, some w => .generated a i w
    | _, _, _ => .convFailure

/-- The banner line `"=" * 80` printed after each demonstration
configuration (line 161). -/
def banner_line : String := String.mk (List.replicate 80 '=')

/-- What the demonstration sweep emits (lines 157–162): each of the five
preset configurations, each followed by the banner line. -/
def demo_sweep_output : List ((ℤ × ℤ × ℤ) × String) :=
  demo_configs.map (fun c => (c, banner_line))

/-- Exit status of each outcome, where this dispatch-level model knows it:
the demonstration sweep over the five preset configurations completes and
exits 0; an uncaught `int()` conversion error exits nonzero (1); the exit
status of a single generation run depends on the parameter values (for
extreme widths the int-to-float conversions at lines 25 and 35 raise an
uncaught `OverflowError` and the process exits nonzero), so it is left
unmodelled here. -/
def exit_code : MainResult → Option ℕ
  | .demoSweep _ => some 0
  | .generated _ _ _ => none
  | .convFailure => some 1

/-! ### Basic facts about the embedding -/

/-- On nonnegative reals, truncation toward zero is the floor. -/
theorem int_trunc_eq_floor {x : ℝ} (hx : 0 ≤ x) : int_trunc x = ⌊x⌋ :=
  if_neg (not_lt.mpr hx)

theorem frac_bits_nonneg (angle_width : ℤ) : 0 ≤ frac_bits angle_width :=
  le_trans (by norm_num) (le_max_right _ _)

theorem five_le_frac_bits (angle_width : ℤ) : 5 ≤ frac_bits angle_width :=
  le_max_right _ _

theorem angle_scale_pos (angle_width : ℤ) : 0 < angle_scale angle_width :=
  pow_pos (by norm_num) _

theorem angle_scale_real_pos (angle_width : ℤ) :
    (0 : ℝ) < (angle_scale angle_width : ℝ) := by
  exact_mod_cast angle_scale_pos angle_width

/-! ### Claims -/

/-- Claim C1: for every parameter set of positive integers, the precision
selector computes exactly `fractional_bits = max(angle_width - 3, 5)`,
`angle_scale = 2^fractional_bits` and `coord_scale = 2^(data_width - 2)`;
`angle_width = 4` yields `fractional_bits = 5`, and the computation is total
(no error condition). -/
theorem precision_selector_correct (angle_width iterations width : ℤ)
    (ha : 0 < angle_width) (hi : 0 < iterations) (hw : 0 < width) :
    frac_bits angle_width = max (angle_width - 3) 5 ∧
    ((angle_scale angle_width : ℚ) = 2 ^ frac_bits angle_width ∧
      coord_scale width = 2 ^ (width - 2)) ∧
    frac_bits 4 = 5 := by
  refine ⟨rfl, ⟨?_, rfl⟩, by norm_num [frac_bits]⟩
  have h := frac_bits_nonneg angle_width
  rw [angle_scale]
  push_cast
  rw [← zpow_natCast (2 : ℚ) (frac_bits angle_width).toNat,
    Int.toNat_of_nonneg h]

/-- Witness for C1 at the parameter set `(4, 15, 16)`. -/
theorem precision_selector_correct_witness :
    (0 : ℤ) < 4 ∧ (0 : ℤ) < 15 ∧ (0 : ℤ) < 16 ∧
    (frac_bits 4 = max (4 - 3) 5 ∧
      ((angle_scale 4 : ℚ) = 2 ^ frac_bits 4 ∧
        coord_scale 16 = 2 ^ ((16 : ℤ) - 2)) ∧
      frac_bits 4 = 5) :=
  ⟨by norm_num, by norm_num, by norm_num,
    precision_selector_correct 4 15 16 (by norm_num) (by norm_num) (by norm_num)⟩

/-- On nonnegative reals, `int_trunc` brackets its argument from below within 1. -/
theorem int_trunc_bracket {x : ℝ} (hx : 0 ≤ x) :
    (int_trunc x : ℝ) ≤ x ∧ x < (int_trunc x : ℝ) + 1 := by
  rw [int_trunc_eq_floor hx]
  exact ⟨Int.floor_le x, Int.lt_floor_add_one x⟩

/-- Claim C2: each generated angle constant is the truncation toward zero of
the corresponding real constant times `angle_scale` — the integer `c` with
`c ≤ real·scale < c + 1` — and for `angle_width = 32` (so `angle_scale = 2^29`)
the constant PI is `1686629713 = 0x6487ED51`. -/
theorem angle_constants_truncated (angle_width : ℤ) :
    ((pi_scaled angle_width : ℝ) ≤ Real.pi * (angle_scale angle_width : ℝ) ∧
      Real.pi * (angle_scale angle_width : ℝ) < (pi_scaled angle_width : ℝ) + 1) ∧
    ((pi_2_scaled angle_width : ℝ) ≤ Real.pi / 2 * (angle_scale angle_width : ℝ) ∧
      Real.pi / 2 * (angle_scale angle_width : ℝ) < (pi_2_scaled angle_width : ℝ) + 1) ∧
    ((pi_3_2_scaled angle_width : ℝ) ≤ 3 * Real.pi / 2 * (angle_scale angle_width : ℝ) ∧
      3 * Real.pi / 2 * (angle_scale angle_width : ℝ) < (pi_3_2_scaled angle_width : ℝ) + 1) ∧
    ((two_pi_scaled angle_width : ℝ) ≤ 2 * Real.pi * (angle_scale angle_width : ℝ) ∧
      2 * Real.pi * (angle_scale angle_width : ℝ) < (two_pi_scaled angle_width : ℝ) + 1) ∧
    pi_scaled 32 = 1686629713 ∧ (1686629713 : ℤ) = 0x6487ED51 := by
  have hs := (angle_scale_real_pos angle_width).le
  have hpi := Real.pi_pos.le
  refine ⟨int_trunc_bracket (by positivity), int_trunc_bracket (by positivity),
    int_trunc_bracket (by positivity), int_trunc_bracket (by positivity), ?_, by norm_num⟩
  have h0 : angle_scale 32 = 536870912 := by decide
  have hsc : (angle_scale 32 : ℝ) = 536870912 := by
    rw [h0]; norm_num
  rw [pi_scaled, hsc, int_trunc_eq_floor (by positivity), Int.floor_eq_iff]
  constructor
  · have h := Real.pi_gt_d20
    push_cast
    nlinarith
  · have h := Real.pi_lt_d20
    push_cast
    nlinarith

/-- Truncating `v·s` toward zero and decoding by `s` lands within `1/s` of `v`,
for nonnegative `v` and positive scale `s`. -/
theorem trunc_scale_close {v s : ℝ} (hv : 0 ≤ v) (hs : 0 < s) :
    |(int_trunc (v * s) : ℝ) / s - v| ≤ 1 / s := by
  rw [int_trunc_eq_floor (mul_nonneg hv hs.le), abs_le]
  have hfl : (⌊v * s⌋ : ℝ) ≤ v * s := Int.floor_le _
  have hfg : v * s - 1 < (⌊v * s⌋ : ℝ) := Int.sub_one_lt_floor _
  have h2 : (⌊v * s⌋ : ℝ) / s ≤ v := by
    rw [div_le_iff hs]; exact hfl
  have h3 : v - 1 / s < (⌊v * s⌋ : ℝ) / s := by
    rw [lt_div_iff hs, sub_mul, one_div, inv_mul_cancel₀ hs.ne']
    exact hfg
  have h4 : (0 : ℝ) ≤ 1 / s := by positivity
  exact ⟨by linarith, by linarith⟩

/-- Claim C6: decoding each generated angle constant back to a real value
(`integer / angle_scale`) lands within one unit in the last place
(`1 / angle_scale`) of the original real constant π, π/2, 3π/2 or 2π. -/
theorem angle_constants_roundtrip (angle_width : ℤ) :
    |(pi_scaled angle_width : ℝ) / (angle_scale angle_width : ℝ) - Real.pi| ≤
      1 / (angle_scale angle_width : ℝ) ∧
    |(pi_2_scaled angle_width : ℝ) / (angle_scale angle_width : ℝ) - Real.pi / 2| ≤
      1 / (angle_scale angle_width : ℝ) ∧
    |(pi_3_2_scaled angle_width : ℝ) / (angle_scale angle_width : ℝ) - 3 * Real.pi / 2| ≤
      1 / (angle_scale angle_width : ℝ) ∧
    |(two_pi_scaled angle_width : ℝ) / (angle_scale angle_width : ℝ) - 2 * Real.pi| ≤
      1 / (angle_scale angle_width : ℝ) := by
  have hs := angle_scale_real_pos angle_width
  exact ⟨trunc_scale_close Real.pi_pos.le hs,
    trunc_scale_close (by positivity) hs,
    trunc_scale_close (by positivity) hs,
    trunc_scale_close (by positivity) hs⟩

/-- The running product of the gain loop equals the closed product
`Π_{i<iterations} sqrt(1 + 2^(-2i))`. -/
theorem cordic_gain_real_eq_prod (iterations : ℕ) :
    cordic_gain_real iterations =
      ∏ i ∈ Finset.range iterations, Real.sqrt (1 + (2 : ℝ) ^ (-(2 * (i : ℤ)))) := by
  induction iterations with
  | zero => simp [cordic_gain_real]
  | succ n ih => rw [cordic_gain_real, ih, Finset.prod_range_succ]

/-- Claim C3: the gain constant is `truncate(compensation_factor × coord_scale)`
with `compensation_factor = 1 / Π_{i=0}^{iterations-1} sqrt(1 + 2^(-2i))`, the
iterative running product started at 1 and inverted at the end. -/
theorem gain_constant_correct (iterations : ℕ) (width : ℤ) :
    cordic_gain_scaled iterations width =
      int_trunc ((1 / ∏ i ∈ Finset.range iterations,
        Real.sqrt (1 + (2 : ℝ) ^ (-(2 * (i : ℤ))))) * (coord_scale width : ℝ)) ∧
    cordic_gain_compensated iterations = 1 / cordic_gain_real iterations := by
  rw [cordic_gain_scaled, cordic_gain_compensated, cordic_gain_real_eq_prod]
  exact ⟨rfl, rfl⟩

/-- Claim C4: the arctangent table has exactly `iterations` entries, and the
entry at index `i` (index-aligned with the CORDIC iteration number) is
`truncate(atan(2^-i) × angle_scale)`. -/
theorem atan_table_correct (angle_width : ℤ) (iterations i : ℕ)
    (hi : i < iterations) :
    (atan_table angle_width iterations).length = iterations ∧
    (atan_table angle_width iterations)[i]? =
      some (int_trunc (Real.arctan ((2 : ℝ) ^ (-(i : ℤ))) *
        (angle_scale angle_width : ℝ))) := by
  constructor
  · simp [atan_table]
  · simp [atan_table, hi, atan_scaled]

/-- Witness for C4 at `angle_width = 32`, `iterations = 15`, index `3`. -/
theorem atan_table_correct_witness :
    (3 : ℕ) < 15 ∧
    ((atan_table 32 15).length = 15 ∧
      (atan_table 32 15)[(3 : ℕ)]? =
        some (int_trunc (Real.arctan ((2 : ℝ) ^ (-((3 : ℕ) : ℤ))) *
          (angle_scale 32 : ℝ)))) :=
  ⟨by norm_num, atan_table_correct 32 15 3 (by norm_num)⟩

/-- Claim C5: for `angle_width ≥ 4` the reduction ladder has exactly
`max_reduction_power + 1` levels, with power descending from
`max_reduction_power = min(angle_width - 4, 10)` down to 0 (the `k`-th level
has power `max_reduction_power - k`); every level of positive power compares
against `TWO_PI` shifted left by `power`, annotated with the angular range
`2^(power+1) × 180` degrees, and falls through, while the level at power 0 is
terminal, handing off to quadrant correction. -/
theorem reduction_ladder_correct (angle_width : ℤ) (h4 : 4 ≤ angle_width)
    (k : ℕ) (hk : (k : ℤ) ≤ max_reduction_power angle_width) :
    ((reduction_ladder angle_width).length : ℤ) = max_reduction_power angle_width + 1 ∧
    (reduction_ladder angle_width)[k]? =
      some (reduction_level ((max_reduction_power angle_width).toNat - k)) ∧
    (∀ p : ℕ, 0 < p → (reduction_level p).power = (p : ℤ) ∧
      (reduction_level p).shift = p ∧
      (reduction_level p).angle_equiv_deg = 2 ^ (p + 1) * 180 ∧
      (reduction_level p).terminal = false) ∧
    ((reduction_level 0).terminal = true ∧
      (reduction_ladder angle_width).getLast? = some (reduction_level 0)) := by
  have hm : 0 ≤ max_reduction_power angle_width := by
    rw [max_reduction_power]; omega
  have hnn : ¬ max_reduction_power angle_width < 0 := not_lt.mpr hm
  have hkM : k ≤ (max_reduction_power angle_width).toNat := by omega
  refine ⟨?_, ?_, ?_, rfl, ?_⟩
  · rw [reduction_ladder, if_neg hnn]
    simp only [List.length_map, List.length_range]
    push_cast
    rw [Int.toNat_of_nonneg hm]
  · rw [reduction_ladder, if_neg hnn]
    simp [Nat.lt_succ_of_le hkM]
  · intro p hp
    refine ⟨rfl, rfl, rfl, ?_⟩
    simp only [reduction_level, beq_eq_false_iff_ne, ne_eq]
    omega
  · rw [reduction_ladder, if_neg hnn]
    rw [List.getLast?_eq_getElem?]
    simp

/-- Witness for C5 at `angle_width = 32`, level index `k = 0`. -/
theorem reduction_ladder_correct_witness :
    (4 : ℤ) ≤ 32 ∧ ((0 : ℕ) : ℤ) ≤ max_reduction_power 32 ∧
    (((reduction_ladder 32).length : ℤ) = max_reduction_power 32 + 1 ∧
      (reduction_ladder 32)[(0 : ℕ)]? =
        some (reduction_level ((max_reduction_power 32).toNat - 0)) ∧
      (∀ p : ℕ, 0 < p → (reduction_level p).power = (p : ℤ) ∧
        (reduction_level p).shift = p ∧
        (reduction_level p).angle_equiv_deg = 2 ^ (p + 1) * 180 ∧
        (reduction_level p).terminal = false) ∧
      ((reduction_level 0).terminal = true ∧
        (reduction_ladder 32).getLast? = some (reduction_level 0))) :=
  ⟨by norm_num, by decide,
    reduction_ladder_correct 32 (by norm_num) 0 (by decide)⟩

/-- Each factor of the gain loop is at least 1, so the running product is. -/
theorem one_le_cordic_gain_real (iterations : ℕ) :
    1 ≤ cordic_gain_real iterations := by
  induction iterations with
  | zero => exact le_refl 1
  | succ n ih =>
    have hz : (0 : ℝ) < (2 : ℝ) ^ (-(2 * (n : ℤ))) := zpow_pos (by norm_num) _
    have hs : 1 ≤ Real.sqrt (1 + (2 : ℝ) ^ (-(2 * (n : ℤ)))) :=
      Real.le_sqrt_of_sq_le (by nlinarith)
    calc (1 : ℝ) = 1 * 1 := (one_mul 1).symm
    _ ≤ cordic_gain_real n * Real.sqrt (1 + (2 : ℝ) ^ (-(2 * (n : ℤ)))) :=
        mul_le_mul ih hs (by norm_num) (le_trans (by norm_num) ih)
    _ = cordic_gain_real (n + 1) := rfl

/-- The running product of the gain loop grows with the iteration count. -/
theorem cordic_gain_real_mono : Monotone cordic_gain_real := by
  apply monotone_nat_of_le_succ
  intro n
  have hz : (0 : ℝ) < (2 : ℝ) ^ (-(2 * (n : ℤ))) := zpow_pos (by norm_num) _
  have hs : 1 ≤ Real.sqrt (1 + (2 : ℝ) ^ (-(2 * (n : ℤ)))) :=
    Real.le_sqrt_of_sq_le (by nlinarith)
  have hg : (0 : ℝ) ≤ cordic_gain_real n :=
    le_trans (by norm_num) (one_le_cordic_gain_real n)
  calc cordic_gain_real n ≤
      cordic_gain_real n * Real.sqrt (1 + (2 : ℝ) ^ (-(2 * (n : ℤ)))) :=
        le_mul_of_one_le_right hg hs
  _ = cordic_gain_real (n + 1) := rfl

theorem coord_scale_real_pos (width : ℤ) : (0 : ℝ) < (coord_scale width : ℝ) := by
  have h : (0 : ℚ) < coord_scale width := zpow_pos (by norm_num) _
  exact_mod_cast h

/-- Claim C7: holding `data_width` fixed, the gain constant is nonnegative and
does not increase as the iteration count grows: for `n < m` the constant
computed for `m` iterations is at most the one computed for `n`. -/
theorem gain_constant_antitone (width : ℤ) (n m : ℕ) (hnm : n < m) :
    0 ≤ cordic_gain_scaled m width ∧
    cordic_gain_scaled m width ≤ cordic_gain_scaled n width := by
  have hgn : (0 : ℝ) < cordic_gain_real n :=
    lt_of_lt_of_le one_pos (one_le_cordic_gain_real n)
  have hgm : (0 : ℝ) < cordic_gain_real m :=
    lt_of_lt_of_le one_pos (one_le_cordic_gain_real m)
  have hcomp : cordic_gain_compensated m ≤ cordic_gain_compensated n :=
    one_div_le_one_div_of_le hgn (cordic_gain_real_mono hnm.le)
  have hcm : (0 : ℝ) ≤ cordic_gain_compensated m := by
    rw [cordic_gain_compensated]; positivity
  have hcn : (0 : ℝ) ≤ cordic_gain_compensated n := by
    rw [cordic_gain_compensated]; positivity
  have hcs := coord_scale_real_pos width
  constructor
  · rw [cordic_gain_scaled, int_trunc_eq_floor (mul_nonneg hcm hcs.le)]
    exact Int.floor_nonneg.mpr (mul_nonneg hcm hcs.le)
  · rw [cordic_gain_scaled, cordic_gain_scaled,
      int_trunc_eq_floor (mul_nonneg hcm hcs.le),
      int_trunc_eq_floor (mul_nonneg hcn hcs.le)]
    exact Int.floor_le_floor (mul_le_mul_of_nonneg_right hcomp hcs.le)

/-- Witness for C7 at `data_width = 16`, iteration counts `12 < 15`. -/
theorem gain_constant_antitone_witness :
    (12 : ℕ) < 15 ∧
    (0 ≤ cordic_gain_scaled 15 16 ∧
      cordic_gain_scaled 15 16 ≤ cordic_gain_scaled 12 16) :=
  ⟨by norm_num, gain_constant_antitone 16 12 15 (by norm_num)⟩

/-- Claim C8: for `angle_width ≥ 16`, the arctangent-table entries are
nonnegative and non-increasing in the index: for `i < j < iterations` the
entry at `j` (which is what the table stores at that position) is at most the
entry at `i`. -/
theorem atan_table_entries_antitone (angle_width : ℤ) (h16 : 16 ≤ angle_width)
    (iterations i j : ℕ) (hij : i < j) (hj : j < iterations) :
    (atan_table angle_width iterations)[j]? = some (atan_scaled angle_width j) ∧
    0 ≤ atan_scaled angle_width j ∧
    atan_scaled angle_width j ≤ atan_scaled angle_width i := by
  have hs := angle_scale_real_pos angle_width
  have hxj : (0 : ℝ) < (2 : ℝ) ^ (-(j : ℤ)) := zpow_pos (by norm_num) _
  have hmono : (2 : ℝ) ^ (-(j : ℤ)) ≤ (2 : ℝ) ^ (-(i : ℤ)) :=
    zpow_le_zpow_right₀ (by norm_num) (by omega)
  have hj0 : 0 < Real.arctan ((2 : ℝ) ^ (-(j : ℤ))) := by
    have h := Real.arctan_strictMono hxj
    rwa [Real.arctan_zero] at h
  have hi0 : 0 < Real.arctan ((2 : ℝ) ^ (-(i : ℤ))) :=
    lt_of_lt_of_le hj0 (Real.arctan_strictMono.monotone hmono)
  have hle : Real.arctan ((2 : ℝ) ^ (-(j : ℤ))) ≤
      Real.arctan ((2 : ℝ) ^ (-(i : ℤ))) :=
    Real.arctan_strictMono.monotone hmono
  refine ⟨?_, ?_, ?_⟩
  · simp [atan_table, hj]
  · rw [atan_scaled, int_trunc_eq_floor (mul_nonneg hj0.le hs.le)]
    exact Int.floor_nonneg.mpr (mul_nonneg hj0.le hs.le)
  · rw [atan_scaled, atan_scaled, int_trunc_eq_floor (mul_nonneg hj0.le hs.le),
      int_trunc_eq_floor (mul_nonneg hi0.le hs.le)]
    exact Int.floor_le_floor (mul_le_mul_of_nonneg_right hle hs.le)

/-- Witness for C8 at `angle_width = 16`, `iterations = 12`, indices `0 < 1`. -/
theorem atan_table_entries_antitone_witness :
    (16 : ℤ) ≤ 16 ∧ (0 : ℕ) < 1 ∧ (1 : ℕ) < 12 ∧
    ((atan_table 16 12)[(1 : ℕ)]? = some (atan_scaled 16 1) ∧
      0 ≤ atan_scaled 16 1 ∧
      atan_scaled 16 1 ≤ atan_scaled 16 0) :=
  ⟨by norm_num, by norm_num, by norm_num,
    atan_table_entries_antitone 16 (by norm_num) 12 0 1 (by norm_num) (by norm_num)⟩

/-- Claim C9 counterexample: the program does not exit 0 for *every*
invocation — with the right argument count but a non-integer argument,
`int()` raises an uncaught `ValueError` and the process exits nonzero. -/
theorem main_run_nonzero_exit :
    exit_code (main_run ["generate_cordic_constants.py", "abc", "15", "16"]) ≠
      some 0 := by
  decide

/-- Claim C9, amended: with zero or a wrong count of positional arguments the
program runs the built-in demonstration sweep over exactly five preset
configuration tuples, each followed by a banner line, instead of failing, and
this demonstration mode exits 0; however, the generator does not exit 0 for
every invocation — a non-integer positional argument makes `int()` raise an
uncaught `ValueError` and the process exit nonzero. -/
theorem main_cli_contract (argv : List String) (h : argv.length ≠ 4) :
    main_run argv = MainResult.demoSweep demo_configs ∧
    demo_configs.length = 5 ∧
    demo_sweep_output.map Prod.fst = demo_configs ∧
    (∀ p ∈ demo_sweep_output, p.2 = banner_line) ∧
    exit_code (main_run argv) = some 0 := by
  have hd : main_run argv = MainResult.demoSweep demo_configs := by
    unfold main_run
    rw [if_pos h]
  refine ⟨hd, rfl, ?_, ?_, by rw [hd]; rfl⟩
  · rfl
  · intro p hp
    rw [demo_sweep_output] at hp
    obtain ⟨c, _, rfl⟩ := List.mem_map.mp hp
    rfl

/-- Witness for the amended C9: a one-argument invocation falls back to the
demonstration sweep and exits 0. -/
theorem main_cli_contract_witness :
    (["generate_cordic_constants.py"] : List String).length ≠ 4 ∧
    (main_run ["generate_cordic_constants.py"] = MainResult.demoSweep demo_configs ∧
      demo_configs.length = 5 ∧
      demo_sweep_output.map Prod.fst = demo_configs ∧
      (∀ p ∈ demo_sweep_output, p.2 = banner_line) ∧
      exit_code (main_run ["generate_cordic_constants.py"]) = some 0) :=
  ⟨by decide, main_cli_contract ["generate_cordic_constants.py"] (by decide)⟩

/-- Claim C10: for every `angle_width ≥ 4` the generated TWO_PI constant
`truncate(2π · 2^frac_bits)` strictly exceeds the largest representable
signed `angle_width`-bit value `2^(angle_width-1) - 1`, and so does PI_3_2:
the overflow boundary is hit for every valid parameter set. -/
theorem two_pi_exceeds_signed_range (angle_width : ℤ) (h4 : 4 ≤ angle_width) :
    2 ^ (angle_width - 1).toNat - 1 < two_pi_scaled angle_width ∧
    2 ^ (angle_width - 1).toNat - 1 < pi_3_2_scaled angle_width := by
  have hzf : (0 : ℝ) < (2 : ℝ) ^ (frac_bits angle_width) := zpow_pos (by norm_num) _
  have key : ∀ c : ℝ, 4 ≤ c →
      ((2 ^ (angle_width - 1).toNat : ℤ) : ℝ) ≤ c * (angle_scale angle_width : ℝ) := by
    intro c hc
    have h1 : ((2 ^ (angle_width - 1).toNat : ℤ) : ℝ) = (2 : ℝ) ^ (angle_width - 1) := by
      push_cast
      rw [← zpow_natCast (2 : ℝ), Int.toNat_of_nonneg (by omega)]
    have h2 : (angle_scale angle_width : ℝ) = (2 : ℝ) ^ (frac_bits angle_width) := by
      rw [angle_scale]
      push_cast
      rw [← zpow_natCast (2 : ℝ), Int.toNat_of_nonneg (frac_bits_nonneg _)]
    have hz3 : (0 : ℝ) < (2 : ℝ) ^ (angle_width - 3) := zpow_pos (by norm_num) _
    have hmono : (2 : ℝ) ^ (angle_width - 3) ≤ (2 : ℝ) ^ (frac_bits angle_width) :=
      zpow_le_zpow_right₀ (by norm_num) (le_max_left _ _)
    rw [h1, h2]
    calc (2 : ℝ) ^ (angle_width - 1) = 4 * (2 : ℝ) ^ (angle_width - 3) := by
          rw [show angle_width - 1 = 2 + (angle_width - 3) by ring,
            zpow_add₀ (by norm_num : (2 : ℝ) ≠ 0)]
          norm_num
    _ ≤ 4 * (2 : ℝ) ^ (frac_bits angle_width) := by linarith
    _ ≤ c * (2 : ℝ) ^ (frac_bits angle_width) :=
        mul_le_mul_of_nonneg_right hc hzf.le
  have h2pi : (4 : ℝ) ≤ 2 * Real.pi := by nlinarith [Real.pi_gt_three]
  have h32 : (4 : ℝ) ≤ 3 * Real.pi / 2 := by nlinarith [Real.pi_gt_three]
  constructor
  · rw [two_pi_scaled,
      int_trunc_eq_floor (mul_nonneg (by positivity) (angle_scale_real_pos _).le)]
    have hle := Int.le_floor.mpr (key _ h2pi)
    omega
  · rw [pi_3_2_scaled,
      int_trunc_eq_floor (mul_nonneg (by positivity) (angle_scale_real_pos _).le)]
    have hle := Int.le_floor.mpr (key _ h32)
    omega

/-- Witness for C10 at `angle_width = 32`. -/
theorem two_pi_exceeds_signed_range_witness :
    (4 : ℤ) ≤ 32 ∧
    (2 ^ ((32 : ℤ) - 1).toNat - 1 < two_pi_scaled 32 ∧
      2 ^ ((32 : ℤ) - 1).toNat - 1 < pi_3_2_scaled 32) :=
  ⟨by norm_num, two_pi_exceeds_signed_range 32 (by norm_num)⟩
